import Mathlib

/-!
Shallow embedding of the tic-tac-toe derived-state pipeline
(turn log → active player → board → winner/draw) from the repository's
App/GameBoard sources, together with proofs of the specified properties.

The Move Log is a list of turns ordered most-recent-first (new turns are
prepended).  All derivers are pure functions of the log and the static
configuration (the winning-combination table and the symbol → name registry).
-/

/-- The two fixed turn markers, the JavaScript strings "X" and "O". -/
inductive PlayerSymbol where
  | X : PlayerSymbol
  | O : PlayerSymbol
deriving DecidableEq, Repr

/-- A grid coordinate as stored in a turn: `{ row, col }`. -/
structure Square where
  row : Nat
  col : Nat
deriving DecidableEq, Repr

/-- One entry of the Move Log: `{ square: { row, col }, player }`. -/
structure Turn where
  square : Square
  player : PlayerSymbol
deriving DecidableEq, Repr

/-- A board cell: `null` or a symbol. -/
abbrev Cell := Option PlayerSymbol

/-- The 3×3 board, a JS array of row arrays. -/
abbrev Board := List (List Cell)

/-- The Player Registry `players`, a JS object keyed by symbol; lookup of an
absent key yields `undefined`, modelled by `Option`. -/
abbrev Players := PlayerSymbol → Option String

/-- Embeds `deriveActivePlayer(gameTurns)`: start from `'X'`; if the log is
nonempty and its head (most recent turn) was played by `'X'`, switch to `'O'`. -/
def deriveActivePlayer (gameTurns : List Turn) : PlayerSymbol :=
  match gameTurns with
  | [] => PlayerSymbol.X
  | turn :: _ => if turn.player = PlayerSymbol.X then PlayerSymbol.O else PlayerSymbol.X

/-- The symbol placed by the move with chronological index `k` (0 = first move
of the game) in a strictly alternating game started by `"X"`. -/
def symbolAtParity (k : Nat) : PlayerSymbol :=
  if k % 2 = 0 then PlayerSymbol.X else PlayerSymbol.O

/-- The log (most-recent-first) strictly alternates symbols, the chronologically
first move being `"X"`: the entry at distance `i` from the head was the
`(length - 1 - i)`-th move of the game. -/
def AlternatingFromX (gameTurns : List Turn) : Prop :=
  ∀ i (h : i < gameTurns.length),
    (gameTurns.get ⟨i, h⟩).player = symbolAtParity (gameTurns.length - 1 - i)

/-- Embeds `INITIAL_GAME_BOARD`, the all-`null` 3×3 template grid.  (The
source's defensive deep copy `[...INITIAL_GAME_BOARD.map(a => [...a])]` is the
identity under value semantics.) -/
def INITIAL_GAME_BOARD : Board :=
  [[none, none, none], [none, none, none], [none, none, none]]

/-- One iteration of the replay loop in `deriveGameBoard`:
`gameBoard[row][col] = player` for the turn's square. -/
def applyTurn (gameBoard : Board) (turn : Turn) : Board :=
  gameBoard.set turn.square.row
    ((gameBoard.getD turn.square.row []).set turn.square.col (some turn.player))

/-- Embeds `deriveGameBoard(gameTurns)`: start from the blank template and
replay the log front to back (`for (const turn of gameTurns)`), i.e. starting
with the MOST RECENT turn, setting each turn's cell to its player. -/
def deriveGameBoard (gameTurns : List Turn) : Board :=
  gameTurns.foldl applyTurn INITIAL_GAME_BOARD

/-- Reading `gameBoard[row][col]`. -/
def cellAt (gameBoard : Board) (row col : Nat) : Cell :=
  (gameBoard.getD row []).getD col none

/-- Well-formedness of a board value: 3 rows of 3 cells. -/
def WF (gameBoard : Board) : Prop :=
  gameBoard.length = 3 ∧ ∀ i, i < 3 → (gameBoard.getD i []).length = 3

/-- All coordinates of the log are in range (the caller contract: row and
column indices lie in [0,2]). -/
abbrev validTurns (gameTurns : List Turn) : Prop :=
  ∀ t ∈ gameTurns, t.square.row < 3 ∧ t.square.col < 3

/-- The coordinate pair of a turn. -/
def squareKey (turn : Turn) : Nat × Nat :=
  (turn.square.row, turn.square.col)

/-- The caller contract that no two moves of the log share a coordinate. -/
abbrev NodupCoords (gameTurns : List Turn) : Prop :=
  (gameTurns.map squareKey).Nodup

/-- Does this turn sit at the given coordinate? (the replay-analysis
predicate used to characterise `deriveGameBoard` cell by cell). -/
def turnAtKey (row col : Nat) (turn : Turn) : Bool :=
  decide (turn.square.row = row) && decide (turn.square.col = col)

/-- Number of non-empty cells of a board. -/
def nonEmptyCount (gameBoard : Board) : Nat :=
  (gameBoard.map (fun row => row.countP (fun cell => cell.isSome))).sum

/-- One cell of a winning combination: `{ row, column }`. -/
structure ComboCell where
  row : Nat
  column : Nat
deriving DecidableEq, Repr

/-- Embeds `WINNING_COMBINATIONS`: the 8 fixed winning lines, in source
order — rows 0-2, then columns 0-2, then the two diagonals. -/
def WINNING_COMBINATIONS : List (List ComboCell) :=
  [ [⟨0, 0⟩, ⟨0, 1⟩, ⟨0, 2⟩],
    [⟨1, 0⟩, ⟨1, 1⟩, ⟨1, 2⟩],
    [⟨2, 0⟩, ⟨2, 1⟩, ⟨2, 2⟩],
    [⟨0, 0⟩, ⟨1, 0⟩, ⟨2, 0⟩],
    [⟨0, 1⟩, ⟨1, 1⟩, ⟨2, 1⟩],
    [⟨0, 2⟩, ⟨1, 2⟩, ⟨2, 2⟩],
    [⟨0, 0⟩, ⟨1, 1⟩, ⟨2, 2⟩],
    [⟨0, 2⟩, ⟨1, 1⟩, ⟨2, 0⟩] ]

/-- The body of the `for (const combination of WINNING_COMBINATIONS)` loop in
`deriveWinner`: read the three squares of the combination; if the first is
non-null (JS truthiness) and all three are equal, overwrite `winner` with
`players[firstSquareSymbol]`; otherwise keep the accumulated `winner`. -/
def deriveWinnerStep (gameBoard : Board) (players : Players)
    (winner : Option String) (combination : List ComboCell) : Option String :=
  let firstSquareSymbol :=
    cellAt gameBoard (combination.getD 0 ⟨0, 0⟩).row (combination.getD 0 ⟨0, 0⟩).column
  let secondSquareSymbol :=
    cellAt gameBoard (combination.getD 1 ⟨0, 0⟩).row (combination.getD 1 ⟨0, 0⟩).column
  let thirdSquareSymbol :=
    cellAt gameBoard (combination.getD 2 ⟨0, 0⟩).row (combination.getD 2 ⟨0, 0⟩).column
  match firstSquareSymbol with
  | none => winner
  | some s =>
    if secondSquareSymbol = some s ∧ thirdSquareSymbol = some s then players s
    else winner

/-- Embeds `deriveWinner(gameBoard, players)`: `let winner;` (undefined = none)
then the scan over all 8 combinations, never breaking early. -/
def deriveWinner (gameBoard : Board) (players : Players) : Option String :=
  WINNING_COMBINATIONS.foldl (deriveWinnerStep gameBoard players) none

/-- The symbol in the first square of a combination. -/
def comboSymbol (gameBoard : Board) (combination : List ComboCell) : Cell :=
  cellAt gameBoard (combination.getD 0 ⟨0, 0⟩).row (combination.getD 0 ⟨0, 0⟩).column

/-- Does a combination hold three equal non-empty symbols on this board? -/
def comboMatches (gameBoard : Board) (combination : List ComboCell) : Bool :=
  match comboSymbol gameBoard combination with
  | none => false
  | some s =>
    (cellAt gameBoard (combination.getD 1 ⟨0, 0⟩).row (combination.getD 1 ⟨0, 0⟩).column
        == some s)
      && (cellAt gameBoard (combination.getD 2 ⟨0, 0⟩).row (combination.getD 2 ⟨0, 0⟩).column
        == some s)

/-- The value `deriveWinner` would record for a matching combination:
the registry lookup of its first-square symbol. -/
def comboWinner (gameBoard : Board) (players : Players)
    (combination : List ComboCell) : Option String :=
  match comboSymbol gameBoard combination with
  | none => none
  | some s => players s

/-- All 9 cells of the board are non-empty. -/
def boardFull (gameBoard : Board) : Bool :=
  (List.range 3).all fun r => (List.range 3).all fun c => (cellAt gameBoard r c).isSome

/-- Modelled from the spec: the defining statement of `hasDraw` does not
appear among the sources — only the in-source flow note
"hasDraw = 9 turns & no winner" and its render-site callers
(`(winner || hasDraw) && ...`) do.  Modelled as: all nine turns have been
recorded and the winner derivation produced no winner. -/
def hasDraw (gameTurns : List Turn) (winner : Option String) : Bool :=
  (gameTurns.length == 9) && winner.isNone

/-- Embeds the initial Player Registry state `{ X: 'Player 1', O: 'Player 2' }`. -/
def PLAYERS : Players := fun symbol =>
  match symbol with
  | PlayerSymbol.X => some "Player 1"
  | PlayerSymbol.O => some "Player 2"

/-- A degenerate Player Registry with no entry for "X" (JS object lookup of a
missing key yields `undefined`). -/
def playersMissingX : Players := fun symbol =>
  match symbol with
  | PlayerSymbol.X => none
  | PlayerSymbol.O => some "Player 2"

/-- Embeds the JS spread `[newTurn, ...prevTurns]`: the Move Log `record`
operation, a pure prepend producing a new sequence. -/
def record (move : Turn) (prevTurns : List Turn) : List Turn :=
  move :: prevTurns

/-- Embeds the state-updater function passed to `setGameTurns` inside
`handleSelectSquare(rowIndex, colIndex)`: derive the current player from the
PREVIOUS turns, then prepend the new turn. -/
def handleSelectSquare (rowIndex colIndex : Nat) (prevTurns : List Turn) : List Turn :=
  let currentPlayer := deriveActivePlayer prevTurns
  let updatedTurns :=
    record { square := { row := rowIndex, col := colIndex }, player := currentPlayer } prevTurns
  updatedTurns

/-- The Move Logs reachable through repeated applications of the game's own
move-recording handler starting from the empty log. -/
inductive ReachableLog : List Turn → Prop where
  | nil : ReachableLog []
  | step (rowIndex colIndex : Nat) {prevTurns : List Turn} :
      ReachableLog prevTurns → ReachableLog (handleSelectSquare rowIndex colIndex prevTurns)

lemma symbolAtParity_even {k : Nat} (h : k % 2 = 0) : symbolAtParity k = PlayerSymbol.X := by
  simp [symbolAtParity, h]

lemma symbolAtParity_odd {k : Nat} (h : k % 2 = 1) : symbolAtParity k = PlayerSymbol.O := by
  simp [symbolAtParity, h]

/-- On an alternating log the derived active player is the symbol whose
chronological index equals the log length (i.e. the next mover). -/
lemma deriveActivePlayer_alternating (gameTurns : List Turn)
    (h : AlternatingFromX gameTurns) :
    deriveActivePlayer gameTurns = symbolAtParity gameTurns.length := by
  cases gameTurns with
  | nil => simp [deriveActivePlayer, symbolAtParity]
  | cons turn rest =>
    have hhead := h 0 (by simp)
    simp only [List.get] at hhead
    rcases Nat.even_or_odd rest.length with he | ho
    · have h1 : (turn :: rest).length - 1 - 0 = rest.length := by simp
      have h2 : rest.length % 2 = 0 := Nat.even_iff.mp he
      rw [h1, symbolAtParity_even h2] at hhead
      have h3 : (turn :: rest).length % 2 = 1 := by
        simp only [List.length_cons]
        omega
      have hd : deriveActivePlayer (turn :: rest) = PlayerSymbol.O := by
        simp [deriveActivePlayer, hhead]
      rw [hd, List.length_cons]
      exact (symbolAtParity_odd (by simpa using h3)).symm
    · have h1 : (turn :: rest).length - 1 - 0 = rest.length := by simp
      have h2 : rest.length % 2 = 1 := Nat.odd_iff.mp ho
      rw [h1, symbolAtParity_odd h2] at hhead
      have h3 : (turn :: rest).length % 2 = 0 := by
        simp only [List.length_cons]
        omega
      have hd : deriveActivePlayer (turn :: rest) = PlayerSymbol.X := by
        simp [deriveActivePlayer, hhead]
      rw [hd, List.length_cons]
      exact (symbolAtParity_even (by simpa using h3)).symm

lemma WF_initial : WF INITIAL_GAME_BOARD := by
  constructor
  · rfl
  · decide

lemma WF_applyTurn (gameBoard : Board) (turn : Turn) (hb : WF gameBoard) :
    WF (applyTurn gameBoard turn) := by
  obtain ⟨hlen, hrows⟩ := hb
  constructor
  · simp [applyTurn, hlen]
  · intro i hi
    simp only [applyTurn, List.getD_eq_getElem?_getD, List.getElem?_set]
    by_cases hR : turn.square.row = i
    · subst hR
      rw [if_pos rfl, if_pos (by omega)]
      simp only [Option.getD_some, List.length_set]
      have := hrows turn.square.row hi
      rwa [List.getD_eq_getElem?_getD] at this
    · rw [if_neg hR]
      have := hrows i hi
      rwa [List.getD_eq_getElem?_getD] at this

lemma cellAt_applyTurn (gameBoard : Board) (turn : Turn) (row col : Nat)
    (hb : WF gameBoard) (hr : turn.square.row < 3) (hc : turn.square.col < 3) :
    cellAt (applyTurn gameBoard turn) row col =
      if turn.square.row = row ∧ turn.square.col = col then some turn.player
      else cellAt gameBoard row col := by
  obtain ⟨hlen, hrows⟩ := hb
  have hrowlen : (gameBoard[turn.square.row]?.getD []).length = 3 := by
    have := hrows _ hr
    rwa [List.getD_eq_getElem?_getD] at this
  by_cases hR : turn.square.row = row
  · by_cases hC : turn.square.col = col
    · rw [if_pos ⟨hR, hC⟩]
      subst hR
      subst hC
      simp only [cellAt, applyTurn, List.getD_eq_getElem?_getD]
      rw [List.getElem?_set_self (by omega)]
      simp only [Option.getD_some]
      rw [List.getElem?_set_self (by omega)]
      simp
    · rw [if_neg (by tauto)]
      subst hR
      simp only [cellAt, applyTurn, List.getD_eq_getElem?_getD]
      rw [List.getElem?_set_self (by omega)]
      simp only [Option.getD_some]
      rw [List.getElem?_set_ne hC]
  · rw [if_neg (by tauto)]
    simp only [cellAt, applyTurn, List.getD_eq_getElem?_getD]
    rw [List.getElem?_set_ne hR]

lemma WF_foldl (gameTurns : List Turn) (gameBoard : Board) (hb : WF gameBoard) :
    WF (gameTurns.foldl applyTurn gameBoard) := by
  induction gameTurns generalizing gameBoard with
  | nil => simpa using hb
  | cons t ts ih =>
    rw [List.foldl_cons]
    exact ih _ (WF_applyTurn _ _ hb)

lemma WF_deriveGameBoard (gameTurns : List Turn) : WF (deriveGameBoard gameTurns) :=
  WF_foldl gameTurns INITIAL_GAME_BOARD WF_initial

/-- Cell-by-cell characterisation of the replay loop: a cell holds the player
of the LAST turn (in iteration order, i.e. front-to-back through the
most-recent-first log) whose square is that coordinate, and is untouched when
no turn sits there. -/
lemma cellAt_foldl (gameTurns : List Turn) (gameBoard : Board) (row col : Nat)
    (hb : WF gameBoard) (hv : validTurns gameTurns)
    (hr : row < 3) (hc : col < 3) :
    cellAt (gameTurns.foldl applyTurn gameBoard) row col =
      (match (gameTurns.filter (turnAtKey row col)).getLast? with
        | none => cellAt gameBoard row col
        | some t => some t.player) := by
  induction gameTurns generalizing gameBoard with
  | nil => simp
  | cons t ts ih =>
    have hvt : validTurns ts := fun x hx => hv x (List.mem_cons_of_mem _ hx)
    have ht := hv t (List.mem_cons_self _ _)
    rw [List.foldl_cons, ih (applyTurn gameBoard t) (WF_applyTurn _ _ hb) hvt]
    have hcell := cellAt_applyTurn gameBoard t row col hb ht.1 ht.2
    by_cases hkey : turnAtKey row col t = true
    · rw [List.filter_cons_of_pos hkey]
      have hkey2 : t.square.row = row ∧ t.square.col = col := by
        simpa [turnAtKey] using hkey
      cases hf : ts.filter (turnAtKey row col) with
      | nil => simp [List.getLast?_singleton, hcell, hkey2]
      | cons x xs => rw [List.getLast?_cons_cons, List.getLast?_cons]
    · rw [List.filter_cons_of_neg hkey]
      have hkey2 : ¬(t.square.row = row ∧ t.square.col = col) := by
        simpa [turnAtKey] using hkey
      cases hf : ts.filter (turnAtKey row col) with
      | nil => simp [hcell, hkey2]
      | cons x xs => rfl

/-- Specialisation to `deriveGameBoard`. -/
lemma cellAt_deriveGameBoard (gameTurns : List Turn) (row col : Nat)
    (hv : validTurns gameTurns) (hr : row < 3) (hc : col < 3) :
    cellAt (deriveGameBoard gameTurns) row col =
      (match (gameTurns.filter (turnAtKey row col)).getLast? with
        | none => none
        | some t => some t.player) := by
  rw [deriveGameBoard, cellAt_foldl gameTurns INITIAL_GAME_BOARD row col WF_initial hv hr hc]
  cases (gameTurns.filter (turnAtKey row col)).getLast? with
  | none =>
    simp only
    have : cellAt INITIAL_GAME_BOARD row col = none := by
      interval_cases row <;> interval_cases col <;> rfl
    exact this
  | some t => rfl

lemma nodup_all_eq_length_le_one {α : Type} {l : List α} {a : α} (hnd : l.Nodup)
    (hall : ∀ x ∈ l, x = a) : l.length ≤ 1 := by
  rcases l with _ | ⟨x, _ | ⟨y, rest⟩⟩
  · simp
  · simp
  · exfalso
    have hx := hall x (by simp)
    have hy := hall y (by simp)
    rw [List.nodup_cons] at hnd
    exact hnd.1 (by rw [hx, hy]; simp)

/-- Under the no-duplicate-coordinate contract, at most one logged turn sits
at any given coordinate. -/
lemma length_filter_key_le_one (gameTurns : List Turn) (row col : Nat)
    (hnd : NodupCoords gameTurns) :
    (gameTurns.filter (turnAtKey row col)).length ≤ 1 := by
  have hsub : ((gameTurns.filter (turnAtKey row col)).map squareKey).Sublist
      (gameTurns.map squareKey) :=
    List.Sublist.map squareKey (List.filter_sublist gameTurns)
  have hnd2 : ((gameTurns.filter (turnAtKey row col)).map squareKey).Nodup :=
    List.Nodup.sublist hsub hnd
  have hall : ∀ p ∈ (gameTurns.filter (turnAtKey row col)).map squareKey, p = (row, col) := by
    intro p hp
    obtain ⟨t, ht, rfl⟩ := List.mem_map.mp hp
    have hkey := List.of_mem_filter ht
    simp only [turnAtKey, Bool.and_eq_true, decide_eq_true_eq] at hkey
    simp [squareKey, hkey.1, hkey.2]
  have := nodup_all_eq_length_le_one hnd2 hall
  simpa using this

lemma filter_key_of_mem (gameTurns : List Turn) (t : Turn)
    (hnd : NodupCoords gameTurns) (ht : t ∈ gameTurns) :
    gameTurns.filter (turnAtKey t.square.row t.square.col) = [t] := by
  have hmem : t ∈ gameTurns.filter (turnAtKey t.square.row t.square.col) :=
    List.mem_filter.mpr ⟨ht, by simp [turnAtKey]⟩
  have hlen := length_filter_key_le_one gameTurns t.square.row t.square.col hnd
  rcases hfil : gameTurns.filter (turnAtKey t.square.row t.square.col) with _ | ⟨x, xs⟩
  · rw [hfil] at hmem
    simp at hmem
  · rw [hfil] at hmem hlen
    have hxs : xs = [] := by
      cases xs with
      | nil => rfl
      | cons y ys => simp at hlen
    subst hxs
    simp only [List.mem_singleton] at hmem
    rw [hmem]

/-- The cell of the board derived from a no-duplicate log at a logged
coordinate holds exactly that move's symbol. -/
lemma cellAt_logged (gameTurns : List Turn) (t : Turn)
    (hv : validTurns gameTurns) (hnd : NodupCoords gameTurns) (ht : t ∈ gameTurns) :
    cellAt (deriveGameBoard gameTurns) t.square.row t.square.col = some t.player := by
  rw [cellAt_deriveGameBoard gameTurns _ _ hv (hv t ht).1 (hv t ht).2,
    filter_key_of_mem gameTurns t hnd ht, List.getLast?_singleton]

/-- A cell at a coordinate no move of the log touched stays empty. -/
lemma cellAt_unlogged (gameTurns : List Turn) (row col : Nat)
    (hv : validTurns gameTurns) (hr : row < 3) (hc : col < 3)
    (habs : ∀ t ∈ gameTurns, ¬(t.square.row = row ∧ t.square.col = col)) :
    cellAt (deriveGameBoard gameTurns) row col = none := by
  rw [cellAt_deriveGameBoard gameTurns row col hv hr hc]
  have hfil : gameTurns.filter (turnAtKey row col) = [] := by
    rw [List.filter_eq_nil_iff]
    intro t ht
    simp only [turnAtKey, Bool.and_eq_true, decide_eq_true_eq]
    exact fun hcon => habs t ht hcon
  rw [hfil]
  rfl

lemma WF_destruct (gameBoard : Board) (hb : WF gameBoard) :
    ∃ a b c d e f g h i, gameBoard = [[a, b, c], [d, e, f], [g, h, i]] := by
  obtain ⟨hlen, hrows⟩ := hb
  obtain ⟨r0, r1, r2, rfl⟩ := List.length_eq_three.mp hlen
  have h0 : r0.length = 3 := by simpa [List.getD_eq_getElem?_getD] using hrows 0 (by omega)
  have h1 : r1.length = 3 := by simpa [List.getD_eq_getElem?_getD] using hrows 1 (by omega)
  have h2 : r2.length = 3 := by simpa [List.getD_eq_getElem?_getD] using hrows 2 (by omega)
  obtain ⟨a, b, c, rfl⟩ := List.length_eq_three.mp h0
  obtain ⟨d, e, f, rfl⟩ := List.length_eq_three.mp h1
  obtain ⟨g, h, i, rfl⟩ := List.length_eq_three.mp h2
  exact ⟨a, b, c, d, e, f, g, h, i, rfl⟩

/-- Two well-formed boards agreeing on all nine cells are equal. -/
lemma board_ext (b1 b2 : Board) (h1 : WF b1) (h2 : WF b2)
    (hcells : ∀ row col, row < 3 → col < 3 → cellAt b1 row col = cellAt b2 row col) :
    b1 = b2 := by
  obtain ⟨a, b, c, d, e, f, g, h, i, rfl⟩ := WF_destruct b1 h1
  obtain ⟨a', b', c', d', e', f', g', h', i', rfl⟩ := WF_destruct b2 h2
  have e00 := hcells 0 0 (by omega) (by omega)
  have e01 := hcells 0 1 (by omega) (by omega)
  have e02 := hcells 0 2 (by omega) (by omega)
  have e10 := hcells 1 0 (by omega) (by omega)
  have e11 := hcells 1 1 (by omega) (by omega)
  have e12 := hcells 1 2 (by omega) (by omega)
  have e20 := hcells 2 0 (by omega) (by omega)
  have e21 := hcells 2 1 (by omega) (by omega)
  have e22 := hcells 2 2 (by omega) (by omega)
  simp only [cellAt, List.getD_eq_getElem?_getD, List.getElem?_cons_zero,
    List.getElem?_cons_succ, Option.getD_some] at e00 e01 e02 e10 e11 e12 e20 e21 e22
  rw [e00, e01, e02, e10, e11, e12, e20, e21, e22]

/-- Replay order is irrelevant for a no-duplicate log: any permutation of the
log materializes to the same board. -/
lemma deriveGameBoard_congr_perm (gameTurns gameTurns' : List Turn)
    (hv : validTurns gameTurns) (hnd : NodupCoords gameTurns)
    (hp : gameTurns.Perm gameTurns') :
    deriveGameBoard gameTurns = deriveGameBoard gameTurns' := by
  have hv' : validTurns gameTurns' := fun x hx => hv x (hp.mem_iff.mpr hx)
  apply board_ext _ _ (WF_deriveGameBoard gameTurns) (WF_deriveGameBoard gameTurns')
  intro row col hr hc
  rw [cellAt_deriveGameBoard gameTurns row col hv hr hc,
    cellAt_deriveGameBoard gameTurns' row col hv' hr hc]
  have hpf : (gameTurns.filter (turnAtKey row col)).Perm
      (gameTurns'.filter (turnAtKey row col)) := hp.filter _
  have hlen := length_filter_key_le_one gameTurns row col hnd
  have heq : gameTurns.filter (turnAtKey row col) = gameTurns'.filter (turnAtKey row col) := by
    rcases hfe : gameTurns.filter (turnAtKey row col) with _ | ⟨x, xs⟩
    · rw [hfe] at hpf
      rw [hpf.nil_eq]
    · rw [hfe] at hpf hlen
      have hxs : xs = [] := by
        cases xs with
        | nil => rfl
        | cons y ys => simp at hlen
      subst hxs
      exact (List.perm_singleton.mp hpf.symm).symm
  rw [heq]

/-- Setting an empty in-range cell raises the non-empty-cell count by one. -/
lemma nonEmptyCount_applyTurn (gameBoard : Board) (turn : Turn) (hb : WF gameBoard)
    (hr : turn.square.row < 3) (hc : turn.square.col < 3)
    (he : cellAt gameBoard turn.square.row turn.square.col = none) :
    nonEmptyCount (applyTurn gameBoard turn) = nonEmptyCount gameBoard + 1 := by
  obtain ⟨a, b, c, d, e, f, g, h, i, rfl⟩ := WF_destruct gameBoard hb
  obtain ⟨⟨row, col⟩, p⟩ := turn
  simp only at hr hc he ⊢
  interval_cases row <;> interval_cases col <;>
    simp_all [cellAt, applyTurn, nonEmptyCount, List.getD_eq_getElem?_getD,
      List.countP_cons] <;> omega

lemma WF_foldr (gameTurns : List Turn) :
    WF (gameTurns.foldr (fun t b => applyTurn b t) INITIAL_GAME_BOARD) := by
  induction gameTurns with
  | nil => exact WF_initial
  | cons t ts ih => exact WF_applyTurn _ _ ih

lemma cellAt_foldr_none (gameTurns : List Turn) (row col : Nat)
    (hv : validTurns gameTurns) (hr : row < 3) (hc : col < 3)
    (habs : ∀ t ∈ gameTurns, squareKey t ≠ (row, col)) :
    cellAt (gameTurns.foldr (fun t b => applyTurn b t) INITIAL_GAME_BOARD) row col = none := by
  induction gameTurns with
  | nil =>
    interval_cases row <;> interval_cases col <;> rfl
  | cons t ts ih =>
    have ht := hv t (List.mem_cons_self _ _)
    rw [List.foldr_cons, cellAt_applyTurn _ _ _ _ (WF_foldr ts) ht.1 ht.2, if_neg]
    · exact ih (fun x hx => hv x (List.mem_cons_of_mem _ hx))
        (fun x hx => habs x (List.mem_cons_of_mem _ hx))
    · intro hcon
      exact habs t (List.mem_cons_self _ _) (by simp [squareKey, hcon.1, hcon.2])

lemma nonEmptyCount_foldr (gameTurns : List Turn)
    (hv : validTurns gameTurns) (hnd : NodupCoords gameTurns) :
    nonEmptyCount (gameTurns.foldr (fun t b => applyTurn b t) INITIAL_GAME_BOARD)
      = gameTurns.length := by
  induction gameTurns with
  | nil => rfl
  | cons t ts ih =>
    have ht := hv t (List.mem_cons_self _ _)
    have hvt : validTurns ts := fun x hx => hv x (List.mem_cons_of_mem _ hx)
    simp only [NodupCoords, List.map_cons, List.nodup_cons] at hnd
    have hndt : NodupCoords ts := hnd.2
    have hcellnone :
        cellAt (ts.foldr (fun t b => applyTurn b t) INITIAL_GAME_BOARD)
          t.square.row t.square.col = none := by
      apply cellAt_foldr_none ts _ _ hvt ht.1 ht.2
      intro x hx hk
      have hk2 : squareKey x = squareKey t := hk
      exact hnd.1 (hk2 ▸ List.mem_map_of_mem squareKey hx)
    rw [List.foldr_cons, nonEmptyCount_applyTurn _ t (WF_foldr ts) ht.1 ht.2 hcellnone,
      ih hvt hndt, List.length_cons]

/-- A board materialized from a no-duplicate in-range log of length N has
exactly N non-empty cells. -/
lemma nonEmptyCount_deriveGameBoard (gameTurns : List Turn)
    (hv : validTurns gameTurns) (hnd : NodupCoords gameTurns) :
    nonEmptyCount (deriveGameBoard gameTurns) = gameTurns.length := by
  have hrev : deriveGameBoard gameTurns = deriveGameBoard gameTurns.reverse :=
    deriveGameBoard_congr_perm _ _ hv hnd (List.reverse_perm gameTurns).symm
  rw [hrev, deriveGameBoard, List.foldl_reverse]
  exact nonEmptyCount_foldr gameTurns hv hnd

/-- C3: for every Move Log of length N (0 ≤ N ≤ 9) built by strictly
alternating symbols starting with the first mover "X" (most-recent-first
order), `deriveActivePlayer` returns "X" when N is even and "O" when N is
odd. -/
theorem deriveActivePlayer_parity (gameTurns : List Turn)
    (halt : AlternatingFromX gameTurns) (hlen : gameTurns.length ≤ 9) :
    deriveActivePlayer gameTurns =
      (if gameTurns.length % 2 = 0 then PlayerSymbol.X else PlayerSymbol.O) := by
  rw [deriveActivePlayer_alternating gameTurns halt]
  rfl

/-- Witness for C3 on the concrete alternating two-move log
`[O at (1,1), X at (0,0)]` (most-recent-first): the active player is "X". -/
theorem deriveActivePlayer_parity_witness :
    deriveActivePlayer [⟨⟨1, 1⟩, PlayerSymbol.O⟩, ⟨⟨0, 0⟩, PlayerSymbol.X⟩]
      = PlayerSymbol.X := by
  have h := deriveActivePlayer_parity
    [⟨⟨1, 1⟩, PlayerSymbol.O⟩, ⟨⟨0, 0⟩, PlayerSymbol.X⟩]
    (by
      intro i h
      have h2 : i < 2 := by simpa using h
      interval_cases i <;> rfl)
    (by decide)
  simpa using h

/-- C4: for every Move Log of length N with no duplicate coordinates (and
in-range coordinates), `deriveGameBoard` returns a board with exactly N
non-empty cells; each cell at a logged coordinate equals the symbol of its
Move, and every other cell is empty. -/
theorem deriveGameBoard_materialize_spec (gameTurns : List Turn)
    (hv : validTurns gameTurns) (hnd : NodupCoords gameTurns) :
    nonEmptyCount (deriveGameBoard gameTurns) = gameTurns.length
      ∧ (∀ t ∈ gameTurns,
          cellAt (deriveGameBoard gameTurns) t.square.row t.square.col = some t.player)
      ∧ (∀ row col, row < 3 → col < 3 →
          (∀ t ∈ gameTurns, ¬(t.square.row = row ∧ t.square.col = col)) →
          cellAt (deriveGameBoard gameTurns) row col = none) :=
  ⟨nonEmptyCount_deriveGameBoard gameTurns hv hnd,
   fun t ht => cellAt_logged gameTurns t hv hnd ht,
   fun row col hr hc habs => cellAt_unlogged gameTurns row col hv hr hc habs⟩

/-- Witness for C4 on the spec's worked five-move log
`[(0,2,X), (1,1,O), (0,1,X), (2,0,O), (0,0,X)]` (most-recent-first). -/
theorem deriveGameBoard_materialize_spec_witness :
    nonEmptyCount (deriveGameBoard
        [⟨⟨0, 2⟩, PlayerSymbol.X⟩, ⟨⟨1, 1⟩, PlayerSymbol.O⟩, ⟨⟨0, 1⟩, PlayerSymbol.X⟩,
          ⟨⟨2, 0⟩, PlayerSymbol.O⟩, ⟨⟨0, 0⟩, PlayerSymbol.X⟩]) = 5
      ∧ cellAt (deriveGameBoard
        [⟨⟨0, 2⟩, PlayerSymbol.X⟩, ⟨⟨1, 1⟩, PlayerSymbol.O⟩, ⟨⟨0, 1⟩, PlayerSymbol.X⟩,
          ⟨⟨2, 0⟩, PlayerSymbol.O⟩, ⟨⟨0, 0⟩, PlayerSymbol.X⟩]) 1 1 = some PlayerSymbol.O := by
  have h := deriveGameBoard_materialize_spec
    [⟨⟨0, 2⟩, PlayerSymbol.X⟩, ⟨⟨1, 1⟩, PlayerSymbol.O⟩, ⟨⟨0, 1⟩, PlayerSymbol.X⟩,
      ⟨⟨2, 0⟩, PlayerSymbol.O⟩, ⟨⟨0, 0⟩, PlayerSymbol.X⟩]
    (by decide) (by decide)
  exact ⟨h.1, h.2.1 ⟨⟨1, 1⟩, PlayerSymbol.O⟩ (by decide)⟩

/-- C5: for every Move Log with no duplicate (in-range) coordinates and every
permutation of that log, materializing yields the same board — replay order
does not affect the result when each Move touches a distinct cell. -/
theorem deriveGameBoard_replay_order_irrelevant (gameTurns gameTurns' : List Turn)
    (hv : validTurns gameTurns) (hnd : NodupCoords gameTurns)
    (hp : gameTurns.Perm gameTurns') :
    deriveGameBoard gameTurns = deriveGameBoard gameTurns' :=
  deriveGameBoard_congr_perm gameTurns gameTurns' hv hnd hp

/-- Witness for C5: the spec's worked log and its reversal materialize to the
same board. -/
theorem deriveGameBoard_replay_order_irrelevant_witness :
    deriveGameBoard
        [⟨⟨0, 2⟩, PlayerSymbol.X⟩, ⟨⟨1, 1⟩, PlayerSymbol.O⟩, ⟨⟨0, 1⟩, PlayerSymbol.X⟩,
          ⟨⟨2, 0⟩, PlayerSymbol.O⟩, ⟨⟨0, 0⟩, PlayerSymbol.X⟩]
      = deriveGameBoard
        [⟨⟨0, 0⟩, PlayerSymbol.X⟩, ⟨⟨2, 0⟩, PlayerSymbol.O⟩, ⟨⟨0, 1⟩, PlayerSymbol.X⟩,
          ⟨⟨1, 1⟩, PlayerSymbol.O⟩, ⟨⟨0, 2⟩, PlayerSymbol.X⟩] := by
  apply deriveGameBoard_replay_order_irrelevant _ _ (by decide) (by decide)
  have : ([⟨⟨0, 2⟩, PlayerSymbol.X⟩, ⟨⟨1, 1⟩, PlayerSymbol.O⟩, ⟨⟨0, 1⟩, PlayerSymbol.X⟩,
      ⟨⟨2, 0⟩, PlayerSymbol.O⟩, ⟨⟨0, 0⟩, PlayerSymbol.X⟩] : List Turn).reverse
      = [⟨⟨0, 0⟩, PlayerSymbol.X⟩, ⟨⟨2, 0⟩, PlayerSymbol.O⟩, ⟨⟨0, 1⟩, PlayerSymbol.X⟩,
        ⟨⟨1, 1⟩, PlayerSymbol.O⟩, ⟨⟨0, 2⟩, PlayerSymbol.X⟩] := rfl
  rw [← this]
  exact (List.reverse_perm _).symm

/-- C1 counterexample: on the duplicate-coordinate log
`[O at (0,0) (newest), X at (0,0) (oldest)]` the materialized cell (0,0)
holds "X" — the claim says it should hold the newest symbol "O". -/
theorem duplicate_cell_newest_claim_cex :
    cellAt (deriveGameBoard [⟨⟨0, 0⟩, PlayerSymbol.O⟩, ⟨⟨0, 0⟩, PlayerSymbol.X⟩]) 0 0
        = some PlayerSymbol.X
      ∧ ¬(cellAt (deriveGameBoard [⟨⟨0, 0⟩, PlayerSymbol.O⟩, ⟨⟨0, 0⟩, PlayerSymbol.X⟩]) 0 0
        = some PlayerSymbol.O) := by
  decide

/-- C1 amended: for every Move Log that records two Moves at the same
coordinate (the newer one listed first in the most-recent-first log), the
materialized cell holds the symbol of the OLDEST (earliest-recorded) of the
two Moves — the later Move in replay order wins the cell. -/
theorem duplicate_cell_oldest_wins (gameTurns : List Turn) (row col : Nat)
    (tNew tOld : Turn) (hv : validTurns gameTurns) (hr : row < 3) (hc : col < 3)
    (hfil : gameTurns.filter (turnAtKey row col) = [tNew, tOld]) :
    cellAt (deriveGameBoard gameTurns) row col = some tOld.player := by
  rw [cellAt_deriveGameBoard gameTurns row col hv hr hc, hfil]
  rfl

/-- Witness for C1's amended statement on the counterexample log. -/
theorem duplicate_cell_oldest_wins_witness :
    cellAt (deriveGameBoard [⟨⟨0, 0⟩, PlayerSymbol.O⟩, ⟨⟨0, 0⟩, PlayerSymbol.X⟩]) 0 0
      = some PlayerSymbol.X :=
  duplicate_cell_oldest_wins
    [⟨⟨0, 0⟩, PlayerSymbol.O⟩, ⟨⟨0, 0⟩, PlayerSymbol.X⟩] 0 0
    ⟨⟨0, 0⟩, PlayerSymbol.O⟩ ⟨⟨0, 0⟩, PlayerSymbol.X⟩
    (by decide) (by decide) (by decide) (by decide)

/-- C8: the Move Log `record` operation returns a new sequence equal to the
new Move prepended to the existing sequence; the prior sequence is the
untouched tail of the result (value semantics — the embedding has no
in-place mutation, so a holder of the prior sequence keeps its contents),
and `handleSelectSquare` records through exactly this prepend. -/
theorem record_prepends (move : Turn) (prevTurns : List Turn) (rowIndex colIndex : Nat) :
    record move prevTurns = move :: prevTurns
      ∧ (record move prevTurns).drop 1 = prevTurns
      ∧ handleSelectSquare rowIndex colIndex prevTurns
          = record ⟨⟨rowIndex, colIndex⟩, deriveActivePlayer prevTurns⟩ prevTurns :=
  ⟨rfl, rfl, rfl⟩

/-- C9: the move-recording handler derives the recorded symbol from the
previous log via `deriveActivePlayer`, so every Move Log reachable through
repeated applications of the handler from the empty log strictly alternates
symbols beginning with "X" — equivalently, no non-alternating log is
reachable through it. -/
theorem reachable_log_alternating (gameTurns : List Turn) (h : ReachableLog gameTurns) :
    AlternatingFromX gameTurns := by
  induction h with
  | nil =>
    intro i hi
    simp at hi
  | @step rowIndex colIndex prevTurns hprev ih =>
    have hact := deriveActivePlayer_alternating prevTurns ih
    intro i hi
    cases i with
    | zero =>
      show (deriveActivePlayer prevTurns) = _
      rw [hact]
      have harg : (handleSelectSquare rowIndex colIndex prevTurns).length - 1 - 0
          = prevTurns.length := by
        simp [handleSelectSquare, record]
      rw [harg]
    | succ j =>
      have hj : j < prevTurns.length := by
        simpa [handleSelectSquare, record] using hi
      have hih := ih j hj
      show (prevTurns.get ⟨j, hj⟩).player = _
      rw [hih]
      have harg : (handleSelectSquare rowIndex colIndex prevTurns).length - 1 - (j + 1)
          = prevTurns.length - 1 - j := by
        simp only [handleSelectSquare, record, List.length_cons]
        omega
      rw [harg]

/-- Witness for C9: the log produced by two handler applications from the
empty log is alternating. -/
theorem reachable_log_alternating_witness :
    AlternatingFromX (handleSelectSquare 1 1 (handleSelectSquare 0 0 [])) :=
  reachable_log_alternating _
    (ReachableLog.step 1 1 (ReachableLog.step 0 0 ReachableLog.nil))

lemma comboSymbol_of_matches (gameBoard : Board) (combination : List ComboCell)
    (hm : comboMatches gameBoard combination = true) :
    ∃ s, comboSymbol gameBoard combination = some s := by
  cases hfs : comboSymbol gameBoard combination with
  | none =>
    rw [comboMatches, hfs] at hm
    simp at hm
  | some s => exact ⟨s, rfl⟩

lemma deriveWinnerStep_of_matches (gameBoard : Board) (players : Players)
    (winner : Option String) (combination : List ComboCell)
    (hm : comboMatches gameBoard combination = true) :
    deriveWinnerStep gameBoard players winner combination
      = comboWinner gameBoard players combination := by
  obtain ⟨s, hs⟩ := comboSymbol_of_matches gameBoard combination hm
  have hm2 : cellAt gameBoard (combination.getD 1 ⟨0, 0⟩).row
        (combination.getD 1 ⟨0, 0⟩).column = some s
      ∧ cellAt gameBoard (combination.getD 2 ⟨0, 0⟩).row
        (combination.getD 2 ⟨0, 0⟩).column = some s := by
    rw [comboMatches, hs] at hm
    simpa using hm
  have hs' : cellAt gameBoard (combination.getD 0 ⟨0, 0⟩).row
      (combination.getD 0 ⟨0, 0⟩).column = some s := hs
  simp only [deriveWinnerStep, comboWinner, hs', hs]
  rw [if_pos hm2]

lemma deriveWinnerStep_of_no_match (gameBoard : Board) (players : Players)
    (winner : Option String) (combination : List ComboCell)
    (hm : comboMatches gameBoard combination = false) :
    deriveWinnerStep gameBoard players winner combination = winner := by
  cases hfs : comboSymbol gameBoard combination with
  | none =>
    have hs' : cellAt gameBoard (combination.getD 0 ⟨0, 0⟩).row
        (combination.getD 0 ⟨0, 0⟩).column = none := hfs
    simp only [deriveWinnerStep, hs']
  | some s =>
    have hs' : cellAt gameBoard (combination.getD 0 ⟨0, 0⟩).row
        (combination.getD 0 ⟨0, 0⟩).column = some s := hfs
    have hm2 : ¬(cellAt gameBoard (combination.getD 1 ⟨0, 0⟩).row
          (combination.getD 1 ⟨0, 0⟩).column = some s
        ∧ cellAt gameBoard (combination.getD 2 ⟨0, 0⟩).row
          (combination.getD 2 ⟨0, 0⟩).column = some s) := by
      rw [comboMatches, hfs] at hm
      intro hcon
      rw [hcon.1, hcon.2] at hm
      simp at hm
    simp only [deriveWinnerStep, hs']
    rw [if_neg hm2]

/-- The scan over any prefix of the combination table keeps the LAST matching
combination's registry lookup, or the accumulator when none matches. -/
lemma deriveWinner_foldl (gameBoard : Board) (players : Players)
    (combos : List (List ComboCell)) (winner0 : Option String) :
    combos.foldl (deriveWinnerStep gameBoard players) winner0
      = (match (combos.filter (comboMatches gameBoard)).getLast? with
          | none => winner0
          | some combo => comboWinner gameBoard players combo) := by
  induction combos generalizing winner0 with
  | nil => rfl
  | cons cmb rest ih =>
    rw [List.foldl_cons, ih]
    by_cases hm : comboMatches gameBoard cmb = true
    · rw [List.filter_cons_of_pos hm]
      cases hf : rest.filter (comboMatches gameBoard) with
      | nil =>
        rw [deriveWinnerStep_of_matches gameBoard players winner0 cmb hm]
        rfl
      | cons x xs => rw [List.getLast?_cons_cons, List.getLast?_cons]
    · rw [List.filter_cons_of_neg hm]
      rw [deriveWinnerStep_of_no_match gameBoard players winner0 cmb
        (Bool.not_eq_true _ ▸ hm)]

/-- `deriveWinner` equals the registry lookup for the LAST matching line of
the table scan, or none when no line matches. -/
lemma deriveWinner_eq_lastMatch (gameBoard : Board) (players : Players) :
    deriveWinner gameBoard players
      = (match (WINNING_COMBINATIONS.filter (comboMatches gameBoard)).getLast? with
          | none => none
          | some combo => comboWinner gameBoard players combo) :=
  deriveWinner_foldl gameBoard players WINNING_COMBINATIONS none

/-- When some line matches, `deriveWinner` is the registry lookup of the last
matching line's symbol — uniformly in the registry. -/
lemma deriveWinner_of_some_match (gameBoard : Board)
    (hex : ∃ c ∈ WINNING_COMBINATIONS, comboMatches gameBoard c = true) :
    ∃ clast s,
      (WINNING_COMBINATIONS.filter (comboMatches gameBoard)).getLast? = some clast
        ∧ comboMatches gameBoard clast = true
        ∧ comboSymbol gameBoard clast = some s
        ∧ ∀ players : Players, deriveWinner gameBoard players = players s := by
  obtain ⟨c, hc, hm⟩ := hex
  have hcmem : c ∈ WINNING_COMBINATIONS.filter (comboMatches gameBoard) :=
    List.mem_filter.mpr ⟨hc, hm⟩
  rcases hfe : WINNING_COMBINATIONS.filter (comboMatches gameBoard) with _ | ⟨x, xs⟩
  · rw [hfe] at hcmem
    simp at hcmem
  · have hlastmem : xs.getLast?.getD x ∈ (x :: xs) :=
      List.mem_of_mem_getLast? (List.getLast?_cons)
    have hmemfil : xs.getLast?.getD x ∈ WINNING_COMBINATIONS.filter (comboMatches gameBoard) :=
      hfe.symm ▸ hlastmem
    have hlastmatch : comboMatches gameBoard (xs.getLast?.getD x) = true :=
      (List.mem_filter.mp hmemfil).2
    obtain ⟨s, hs⟩ := comboSymbol_of_matches gameBoard _ hlastmatch
    refine ⟨xs.getLast?.getD x, s, List.getLast?_cons, hlastmatch, hs, fun players => ?_⟩
    rw [deriveWinner_eq_lastMatch gameBoard players, hfe, List.getLast?_cons]
    simp [comboWinner, hs]

/-- When no line matches, `deriveWinner` is none for every registry. -/
lemma deriveWinner_of_no_match (gameBoard : Board)
    (hn : ∀ c ∈ WINNING_COMBINATIONS, comboMatches gameBoard c = false)
    (players : Players) :
    deriveWinner gameBoard players = none := by
  rw [deriveWinner_eq_lastMatch gameBoard players]
  have hfe : WINNING_COMBINATIONS.filter (comboMatches gameBoard) = [] := by
    rw [List.filter_eq_nil_iff]
    intro c hc
    rw [hn c hc]
    simp
  rw [hfe]
  rfl

lemma nonEmptyCount_eq_nine_of_full (gameBoard : Board) (hb : WF gameBoard)
    (hfull : boardFull gameBoard = true) : nonEmptyCount gameBoard = 9 := by
  obtain ⟨a, b, c, d, e, f, g, h, i, rfl⟩ := WF_destruct gameBoard hb
  simp only [boardFull, List.all_eq_true, List.mem_range] at hfull
  have h00 := hfull 0 (by omega) 0 (by omega)
  have h01 := hfull 0 (by omega) 1 (by omega)
  have h02 := hfull 0 (by omega) 2 (by omega)
  have h10 := hfull 1 (by omega) 0 (by omega)
  have h11 := hfull 1 (by omega) 1 (by omega)
  have h12 := hfull 1 (by omega) 2 (by omega)
  have h20 := hfull 2 (by omega) 0 (by omega)
  have h21 := hfull 2 (by omega) 1 (by omega)
  have h22 := hfull 2 (by omega) 2 (by omega)
  simp only [cellAt, List.getD_eq_getElem?_getD, List.getElem?_cons_zero,
    List.getElem?_cons_succ, Option.getD_some] at h00 h01 h02 h10 h11 h12 h20 h21 h22
  simp [nonEmptyCount, List.countP_cons, h00, h01, h02, h10, h11, h12, h20, h21, h22]

/-- With valid no-duplicate coordinates, a full board forces a 9-move log. -/
lemma length_nine_of_boardFull (gameTurns : List Turn)
    (hv : validTurns gameTurns) (hnd : NodupCoords gameTurns)
    (hfull : boardFull (deriveGameBoard gameTurns) = true) :
    gameTurns.length = 9 := by
  have h1 := nonEmptyCount_deriveGameBoard gameTurns hv hnd
  have h2 := nonEmptyCount_eq_nine_of_full _ (WF_deriveGameBoard gameTurns) hfull
  omega

/-- Pigeonhole: 9 distinct valid coordinates fill the whole 3×3 grid. -/
lemma boardFull_of_length_nine (gameTurns : List Turn)
    (hv : validTurns gameTurns) (hnd : NodupCoords gameTurns)
    (h9 : gameTurns.length = 9) :
    boardFull (deriveGameBoard gameTurns) = true := by
  have hcard : (gameTurns.map squareKey).toFinset.card = 9 := by
    rw [List.toFinset_card_of_nodup hnd, List.length_map, h9]
  have hsub : (gameTurns.map squareKey).toFinset ⊆ Finset.range 3 ×ˢ Finset.range 3 := by
    intro p hp
    rw [List.mem_toFinset] at hp
    obtain ⟨t, ht, rfl⟩ := List.mem_map.mp hp
    have hvt := hv t ht
    simp [squareKey, Finset.mem_product, Finset.mem_range, hvt.1, hvt.2]
  have hcardT : (Finset.range 3 ×ˢ Finset.range 3).card = 9 := by
    rw [Finset.card_product]
    simp
  have heq : (gameTurns.map squareKey).toFinset = Finset.range 3 ×ˢ Finset.range 3 :=
    Finset.eq_of_subset_of_card_le hsub (by omega)
  rw [boardFull, List.all_eq_true]
  intro r hr
  rw [List.all_eq_true]
  intro c hc
  rw [List.mem_range] at hr hc
  have hmem : (r, c) ∈ (gameTurns.map squareKey).toFinset := by
    rw [heq]
    simp [Finset.mem_product, Finset.mem_range, hr, hc]
  rw [List.mem_toFinset] at hmem
  obtain ⟨t, ht, hkey⟩ := List.mem_map.mp hmem
  have hcell := cellAt_logged gameTurns t hv hnd ht
  have hrr : t.square.row = r := congrArg Prod.fst hkey
  have hcc : t.square.col = c := congrArg Prod.snd hkey
  rw [hrr, hcc] at hcell
  rw [hcell]
  rfl

/-- C2: `deriveWinner` scans all 8 lines of the Winning-Line Table even after
a match; for every board on which two complete lines of different symbols
exist simultaneously, the winner reported is the Player Registry entry for
the symbol of the last matching line in table order (rows 0-2, then columns
0-2, then the two diagonals). -/
theorem deriveWinner_last_matching_line (gameBoard : Board) (players : Players)
    (c1 c2 : List ComboCell)
    (h1 : c1 ∈ WINNING_COMBINATIONS) (h2 : c2 ∈ WINNING_COMBINATIONS)
    (hm1 : comboMatches gameBoard c1 = true) (hm2 : comboMatches gameBoard c2 = true)
    (hdiff : comboSymbol gameBoard c1 ≠ comboSymbol gameBoard c2) :
    WINNING_COMBINATIONS.length = 8
      ∧ ∃ clast s,
          (WINNING_COMBINATIONS.filter (comboMatches gameBoard)).getLast? = some clast
            ∧ comboSymbol gameBoard clast = some s
            ∧ deriveWinner gameBoard players = players s := by
  obtain ⟨clast, s, hlast, hmatch, hsym, hall⟩ :=
    deriveWinner_of_some_match gameBoard ⟨c1, h1, hm1⟩
  exact ⟨rfl, clast, s, hlast, hsym, hall players⟩

/-- Witness for C2 on the impossible board with complete X-row 0 and complete
O-row 1: the last matching line in table order is row 1, so the O player's
registry name is reported. -/
theorem deriveWinner_last_matching_line_witness :
    deriveWinner [[some PlayerSymbol.X, some PlayerSymbol.X, some PlayerSymbol.X],
        [some PlayerSymbol.O, some PlayerSymbol.O, some PlayerSymbol.O],
        [none, none, none]] PLAYERS = some "Player 2" := by
  obtain ⟨hlen8, clast, s, hlast, hsym, hw⟩ :=
    deriveWinner_last_matching_line
      [[some PlayerSymbol.X, some PlayerSymbol.X, some PlayerSymbol.X],
        [some PlayerSymbol.O, some PlayerSymbol.O, some PlayerSymbol.O],
        [none, none, none]] PLAYERS
      [⟨0, 0⟩, ⟨0, 1⟩, ⟨0, 2⟩] [⟨1, 0⟩, ⟨1, 1⟩, ⟨1, 2⟩]
      (by decide) (by decide) (by decide) (by decide) (by decide)
  have hcl : clast = [⟨1, 0⟩, ⟨1, 1⟩, ⟨1, 2⟩] := by
    have hconc : (WINNING_COMBINATIONS.filter (comboMatches
        [[some PlayerSymbol.X, some PlayerSymbol.X, some PlayerSymbol.X],
          [some PlayerSymbol.O, some PlayerSymbol.O, some PlayerSymbol.O],
          [none, none, none]])).getLast? = some [⟨1, 0⟩, ⟨1, 1⟩, ⟨1, 2⟩] := by decide
    rw [hconc] at hlast
    exact (Option.some.inj hlast.symm)
  subst hcl
  have hsymO : s = PlayerSymbol.O := by
    have hconc : comboSymbol
        [[some PlayerSymbol.X, some PlayerSymbol.X, some PlayerSymbol.X],
          [some PlayerSymbol.O, some PlayerSymbol.O, some PlayerSymbol.O],
          [none, none, none]] [⟨1, 0⟩, ⟨1, 1⟩, ⟨1, 2⟩] = some PlayerSymbol.O := by decide
    rw [hconc] at hsym
    exact (Option.some.inj hsym).symm
  rw [hw, hsymO]
  rfl

/-- C7: the winner's display name is looked up from the Player Registry at
call time: whenever a winning line is present, there is a decisive symbol s
such that `deriveWinner` returns exactly `players s` for EVERY registry; in
particular two registries that differ at s yield different results — renaming
a player after a winning board is derived changes the name returned by a
subsequent call. -/
theorem deriveWinner_registry_lookup_at_call (gameBoard : Board)
    (hwin : ∃ c ∈ WINNING_COMBINATIONS, comboMatches gameBoard c = true) :
    ∃ s : PlayerSymbol,
      (∀ players : Players, deriveWinner gameBoard players = players s)
        ∧ ∀ players1 players2 : Players, players1 s ≠ players2 s →
            deriveWinner gameBoard players1 ≠ deriveWinner gameBoard players2 := by
  obtain ⟨clast, s, hlast, hmatch, hsym, hall⟩ := deriveWinner_of_some_match gameBoard hwin
  refine ⟨s, hall, fun players1 players2 hne => ?_⟩
  rw [hall players1, hall players2]
  exact hne

/-- Witness for C7: renaming on a won board changes the reported name. -/
theorem deriveWinner_registry_lookup_at_call_witness :
    deriveWinner [[some PlayerSymbol.X, some PlayerSymbol.X, some PlayerSymbol.X],
        [none, none, none], [none, none, none]] PLAYERS
      ≠ deriveWinner [[some PlayerSymbol.X, some PlayerSymbol.X, some PlayerSymbol.X],
        [none, none, none], [none, none, none]] (fun _ => some "Renamed") := by
  obtain ⟨s, hall, hdiff⟩ := deriveWinner_registry_lookup_at_call
    [[some PlayerSymbol.X, some PlayerSymbol.X, some PlayerSymbol.X],
      [none, none, none], [none, none, none]]
    ⟨[⟨0, 0⟩, ⟨0, 1⟩, ⟨0, 2⟩], by decide, by decide⟩
  exact hdiff PLAYERS (fun _ => some "Renamed") (by cases s <;> decide)

/-- C10: if the Player Registry has no entry for the symbol of the decisive
(last-matching) completed winning line, `deriveWinner` returns the undefined
winner `none` — indistinguishable at the public interface from "no result
yet" — even though a line of three equal symbols is present on the board;
combined with a full 9-cell board this state is then reported as a draw. -/
theorem missing_registry_entry_reported_as_draw (gameTurns : List Turn) (players : Players)
    (clast : List ComboCell) (s : PlayerSymbol)
    (hv : validTurns gameTurns) (hnd : NodupCoords gameTurns)
    (hlast : (WINNING_COMBINATIONS.filter
        (comboMatches (deriveGameBoard gameTurns))).getLast? = some clast)
    (hsym : comboSymbol (deriveGameBoard gameTurns) clast = some s)
    (hmissing : players s = none) :
    deriveWinner (deriveGameBoard gameTurns) players = none
      ∧ (boardFull (deriveGameBoard gameTurns) = true →
          hasDraw gameTurns (deriveWinner (deriveGameBoard gameTurns) players) = true) := by
  have hw : deriveWinner (deriveGameBoard gameTurns) players = players s := by
    rw [deriveWinner_eq_lastMatch _ players, hlast]
    simp [comboWinner, hsym]
  have hnone : deriveWinner (deriveGameBoard gameTurns) players = none :=
    hw.trans hmissing
  refine ⟨hnone, fun hfull => ?_⟩
  have h9 : gameTurns.length = 9 := length_nine_of_boardFull gameTurns hv hnd hfull
  rw [hasDraw, hnone, h9]
  rfl

/-- Witness for C10: a full board whose only complete line is the X row 0,
with a registry lacking an entry for "X": no winner, reported as draw. -/
theorem missing_registry_entry_reported_as_draw_witness :
    deriveWinner (deriveGameBoard
        [⟨⟨0, 0⟩, PlayerSymbol.X⟩, ⟨⟨0, 1⟩, PlayerSymbol.X⟩, ⟨⟨0, 2⟩, PlayerSymbol.X⟩,
          ⟨⟨1, 0⟩, PlayerSymbol.O⟩, ⟨⟨1, 1⟩, PlayerSymbol.O⟩, ⟨⟨1, 2⟩, PlayerSymbol.X⟩,
          ⟨⟨2, 0⟩, PlayerSymbol.X⟩, ⟨⟨2, 1⟩, PlayerSymbol.O⟩, ⟨⟨2, 2⟩, PlayerSymbol.O⟩])
        playersMissingX = none
      ∧ hasDraw
        [⟨⟨0, 0⟩, PlayerSymbol.X⟩, ⟨⟨0, 1⟩, PlayerSymbol.X⟩, ⟨⟨0, 2⟩, PlayerSymbol.X⟩,
          ⟨⟨1, 0⟩, PlayerSymbol.O⟩, ⟨⟨1, 1⟩, PlayerSymbol.O⟩, ⟨⟨1, 2⟩, PlayerSymbol.X⟩,
          ⟨⟨2, 0⟩, PlayerSymbol.X⟩, ⟨⟨2, 1⟩, PlayerSymbol.O⟩, ⟨⟨2, 2⟩, PlayerSymbol.O⟩]
        (deriveWinner (deriveGameBoard
          [⟨⟨0, 0⟩, PlayerSymbol.X⟩, ⟨⟨0, 1⟩, PlayerSymbol.X⟩, ⟨⟨0, 2⟩, PlayerSymbol.X⟩,
            ⟨⟨1, 0⟩, PlayerSymbol.O⟩, ⟨⟨1, 1⟩, PlayerSymbol.O⟩, ⟨⟨1, 2⟩, PlayerSymbol.X⟩,
            ⟨⟨2, 0⟩, PlayerSymbol.X⟩, ⟨⟨2, 1⟩, PlayerSymbol.O⟩, ⟨⟨2, 2⟩, PlayerSymbol.O⟩])
          playersMissingX) = true := by
  have h := missing_registry_entry_reported_as_draw
    [⟨⟨0, 0⟩, PlayerSymbol.X⟩, ⟨⟨0, 1⟩, PlayerSymbol.X⟩, ⟨⟨0, 2⟩, PlayerSymbol.X⟩,
      ⟨⟨1, 0⟩, PlayerSymbol.O⟩, ⟨⟨1, 1⟩, PlayerSymbol.O⟩, ⟨⟨1, 2⟩, PlayerSymbol.X⟩,
      ⟨⟨2, 0⟩, PlayerSymbol.X⟩, ⟨⟨2, 1⟩, PlayerSymbol.O⟩, ⟨⟨2, 2⟩, PlayerSymbol.O⟩]
    playersMissingX [⟨0, 0⟩, ⟨0, 1⟩, ⟨0, 2⟩] PlayerSymbol.X
    (by decide) (by decide) (by decide) (by decide) (by decide)
  exact ⟨h.1, h.2 (by decide)⟩

/-- C6: with a total registry and a valid no-duplicate log, the outcome is a
draw iff all 9 cells of the materialized board are non-empty and no winning
line matched; in particular a no-duplicate log of 9 moves filling every cell
with no line of 3 equal symbols is reported as a draw. -/
theorem evaluate_draw_iff (gameTurns : List Turn) (players : Players)
    (hv : validTurns gameTurns) (hnd : NodupCoords gameTurns)
    (htotal : ∀ s, (players s).isSome = true) :
    (hasDraw gameTurns (deriveWinner (deriveGameBoard gameTurns) players) = true
        ↔ boardFull (deriveGameBoard gameTurns) = true
            ∧ ∀ c ∈ WINNING_COMBINATIONS,
                comboMatches (deriveGameBoard gameTurns) c = false)
      ∧ (gameTurns.length = 9 →
          (∀ c ∈ WINNING_COMBINATIONS,
              comboMatches (deriveGameBoard gameTurns) c = false) →
          hasDraw gameTurns (deriveWinner (deriveGameBoard gameTurns) players) = true) := by
  constructor
  · constructor
    · intro hd
      rw [hasDraw, Bool.and_eq_true, beq_iff_eq, Option.isNone_iff_eq_none] at hd
      refine ⟨boardFull_of_length_nine gameTurns hv hnd hd.1, ?_⟩
      intro c hc
      by_contra hcon
      rw [Bool.not_eq_false] at hcon
      obtain ⟨clast, s, hlast, hmatch, hsym, hall⟩ :=
        deriveWinner_of_some_match (deriveGameBoard gameTurns) ⟨c, hc, hcon⟩
      have hps := hall players
      rw [hd.2] at hps
      have hts := htotal s
      rw [← hps] at hts
      simp at hts
    · intro hfn
      have h9 := length_nine_of_boardFull gameTurns hv hnd hfn.1
      have hw := deriveWinner_of_no_match (deriveGameBoard gameTurns) hfn.2 players
      rw [hasDraw, hw, h9]
      rfl
  · intro h9 hnone
    have hw := deriveWinner_of_no_match (deriveGameBoard gameTurns) hnone players
    rw [hasDraw, hw, h9]
    rfl

/-- Witness for C6 on a 9-move drawn game (board X O X / X O O / O X X). -/
theorem evaluate_draw_iff_witness :
    hasDraw
      [⟨⟨0, 0⟩, PlayerSymbol.X⟩, ⟨⟨0, 1⟩, PlayerSymbol.O⟩, ⟨⟨0, 2⟩, PlayerSymbol.X⟩,
        ⟨⟨1, 0⟩, PlayerSymbol.X⟩, ⟨⟨1, 1⟩, PlayerSymbol.O⟩, ⟨⟨1, 2⟩, PlayerSymbol.O⟩,
        ⟨⟨2, 0⟩, PlayerSymbol.O⟩, ⟨⟨2, 1⟩, PlayerSymbol.X⟩, ⟨⟨2, 2⟩, PlayerSymbol.X⟩]
      (deriveWinner (deriveGameBoard
        [⟨⟨0, 0⟩, PlayerSymbol.X⟩, ⟨⟨0, 1⟩, PlayerSymbol.O⟩, ⟨⟨0, 2⟩, PlayerSymbol.X⟩,
          ⟨⟨1, 0⟩, PlayerSymbol.X⟩, ⟨⟨1, 1⟩, PlayerSymbol.O⟩, ⟨⟨1, 2⟩, PlayerSymbol.O⟩,
          ⟨⟨2, 0⟩, PlayerSymbol.O⟩, ⟨⟨2, 1⟩, PlayerSymbol.X⟩, ⟨⟨2, 2⟩, PlayerSymbol.X⟩])
        PLAYERS) = true :=
  (evaluate_draw_iff
    [⟨⟨0, 0⟩, PlayerSymbol.X⟩, ⟨⟨0, 1⟩, PlayerSymbol.O⟩, ⟨⟨0, 2⟩, PlayerSymbol.X⟩,
      ⟨⟨1, 0⟩, PlayerSymbol.X⟩, ⟨⟨1, 1⟩, PlayerSymbol.O⟩, ⟨⟨1, 2⟩, PlayerSymbol.O⟩,
      ⟨⟨2, 0⟩, PlayerSymbol.O⟩, ⟨⟨2, 1⟩, PlayerSymbol.X⟩, ⟨⟨2, 2⟩, PlayerSymbol.X⟩]
    PLAYERS (by decide) (by decide)
    (fun s => by cases s <;> rfl)).2 rfl (by decide)
